import Mathlib

/-!
# exporter: named SQL queries served as CSV over HTTP

A shallow embedding of `main.go`: the query registry (`Config.getQuery`), the
result streamer (`runQuery`) and the two HTTP handlers registered in `main`.

Conventions of the embedding.

* A Go `string` is a list of code points (`GoString`); lengths are counted in
  code points.
* A Go `error` is `Option GoString`: `none` is `nil`, `some msg` is an error
  whose `Error()` text is `msg`.
* The database, the cursor, the sink and the HTTP response writer are the
  environment of the program. Each is a value that describes how the
  environment answers, and the program threads it explicitly.
* Logging (`log.Printf`) has no effect on any of the values studied here and is
  left out.
-/

set_option autoImplicit false

namespace Exporter

/-! ## Strings -/

/-- A Go string, as the sequence of its code points. -/
abbrev GoString := List Char

/-- The case mappings of the runes above ASCII. Go reads them from the tables of
package `unicode`, which are data of the standard library and not of this
program; they are a parameter of the embedding. -/
structure CaseTables where
  /-- The value of `unicode.ToLower` on a rune above `unicode.MaxASCII` -/
  lower : Char → Char
  /-- The value of `unicode.ToUpper` on a rune above `unicode.MaxASCII` -/
  upper : Char → Char

/-- The function `unicode.ToLower`: the ASCII range is computed, the rest is looked up. -/
def toLowerRune (t : CaseTables) (r : Char) : Char :=
  if r.toNat ≤ 127 then
    if 65 ≤ r.toNat ∧ r.toNat ≤ 90 then Char.ofNat (r.toNat + 32) else r
  else t.lower r

/-- The function `unicode.ToUpper`: the ASCII range is computed, the rest is looked up. -/
def toUpperRune (t : CaseTables) (r : Char) : Char :=
  if r.toNat ≤ 127 then
    if 97 ≤ r.toNat ∧ r.toNat ≤ 122 then Char.ofNat (r.toNat - 32) else r
  else t.upper r

/-- The function `strings.ToLower`: every rune mapped through `unicode.ToLower`. -/
def ToLower (t : CaseTables) (s : GoString) : GoString :=
  s.map (toLowerRune t)

/-- The function `strings.ToUpper`: every rune mapped through `unicode.ToUpper`. -/
def ToUpper (t : CaseTables) (s : GoString) : GoString :=
  s.map (toUpperRune t)

/-- Case tables that leave every rune above ASCII as it is. -/
def asciiTables : CaseTables where
  lower := fun r => r
  upper := fun r => r

/-- The entry of `unicode.CaseRanges` for U+017F LATIN SMALL LETTER LONG S,
`{0x017F, 0x017F, d{-300, 0, -300}}`: its upper case is U+0053 (`S`) and it is
its own lower case. The other runes above ASCII are left as they are. -/
def longSTables : CaseTables where
  lower := fun r => r
  upper := fun r => if r.toNat = 383 then Char.ofNat 83 else r

/-! ## Configuration and the query registry -/

/-- The Go struct `Queries`: one named statement. -/
structure Queries where
  Name : GoString
  Query : GoString
  deriving DecidableEq, Repr

/-- The anonymous struct `Config.Database`. -/
structure DatabaseConfig where
  Host : GoString
  Port : Int
  Username : GoString
  Password : GoString
  Name : GoString
  deriving DecidableEq, Repr

/-- The Go struct `Config`. -/
structure Config where
  Database : DatabaseConfig
  Queries : List Queries
  deriving DecidableEq, Repr

/-- The `for _, q := range c.Queries` loop of `getQuery`: the first definition
whose lower-cased name equals the lower-cased identifier is returned with a nil
error; when the range is exhausted the result is a nil pointer and the error
`Could not find query <id>`. -/
def getQueryLoop (t : CaseTables) (id : GoString) :
    List Queries → Option Queries × Option GoString
  | [] => (none, some ("Could not find query ".toList ++ id))
  | q :: rest =>
    if ToLower t q.Name = ToLower t id then (some q, none)
    else getQueryLoop t id rest

/-- The method `func (c *Config) getQuery(id string) (*Queries, error)`. The pointer that
is returned is the address of the loop variable, a copy of the definition. -/
def Config.getQuery (t : CaseTables) (c : Config) (id : GoString) :
    Option Exporter.Queries × Option GoString :=
  getQueryLoop t id c.Queries

/-! ## CSV encoding (`encoding/csv`, writer side)

The writer is created with `csv.NewWriter`, so `Comma` is `,` and `UseCRLF` is
false. -/

/-- The double quote, U+0022. -/
def dquote : Char := Char.ofNat 34

/-- The line feed, U+000A. -/
def lf : Char := Char.ofNat 10

/-- The carriage return, U+000D. -/
def cr : Char := Char.ofNat 13

/-- The field delimiter of a writer made by `csv.NewWriter`. -/
def comma : Char := ','

/-- The function `unicode.IsSpace`: the Latin-1 space characters, and above Latin-1 the
code points with the White_Space property. -/
def isSpace (r : Char) : Bool :=
  let n := r.toNat
  if n ≤ 255 then
    n = 9 ∨ n = 10 ∨ n = 11 ∨ n = 12 ∨ n = 13 ∨ n = 32 ∨ n = 133 ∨ n = 160
  else
    n = 5760 ∨ (8192 ≤ n ∧ n ≤ 8202) ∨ n = 8232 ∨ n = 8233 ∨ n = 8239 ∨ n = 8287 ∨ n = 12288

/-- One of the characters that force a field into quotes. -/
def isSpecial (c : Char) : Bool :=
  c = lf ∨ c = cr ∨ c = dquote ∨ c = comma

/-- The method `fieldNeedsQuotes` of `csv.Writer`: an empty field never, the
field `\.` always, otherwise a field with a delimiter, a quote, a carriage
return or a line feed in it, or one that starts with a space character. -/
def fieldNeedsQuotes (field : GoString) : Bool :=
  if field = [] then false
  else if field = [Char.ofNat 92, '.'] then true
  else if field.any isSpecial then true
  else
    match field with
    | r1 :: _ => isSpace r1
    | [] => false

/-- The inside of a quoted field: a quote is written twice, a carriage return
and a line feed are written as they are (`UseCRLF` is false), every other
character is copied. -/
def quoteBody : GoString → GoString
  | [] => []
  | c :: rest => (if c = dquote then [dquote, dquote] else [c]) ++ quoteBody rest

/-- One field as `csv.Writer.Write` emits it. -/
def encodeField (field : GoString) : GoString :=
  if fieldNeedsQuotes field then [dquote] ++ quoteBody field ++ [dquote] else field

/-- The loop `for n, field := range record` of `csv.Writer.Write`: a delimiter
before every field but the first. -/
def encodeFields : Nat → List GoString → GoString
  | _, [] => []
  | n, field :: rest =>
    (if n > 0 then [comma] else []) ++ encodeField field ++ encodeFields (n + 1) rest

/-- The bytes `csv.Writer.Write` produces for one record: the fields, then a
line feed. -/
def encodeRecord (record : List GoString) : GoString :=
  encodeFields 0 record ++ [lf]

/-! ## Writers -/

/-- The interface `io.Writer` over a state `σ`: `Write` answers with the new
state, the number of bytes it took and an error. -/
structure IoWriter (σ : Type) where
  Write : σ → GoString → σ × Nat × Option GoString

/-- A `bufio.Writer`, which is what a `csv.Writer` writes through. The pending
bytes are kept until `Flush`; the real one also hands them to the underlying
writer as soon as 4096 bytes are pending, which gives the underlying writer the
same bytes in the same order, only earlier. -/
structure BufWriter (σ : Type) where
  /-- The underlying writer -/
  wr : σ
  /-- The bytes written and not yet handed on -/
  buf : GoString
  /-- The first error of the underlying writer, kept from then on -/
  err : Option GoString

/-- The call `csv.NewWriter(w)`. -/
def NewWriter {σ : Type} (w : σ) : BufWriter σ :=
  ⟨w, [], none⟩

/-- The method `WriteString` of `bufio.Writer`: nothing is taken once an error is
kept. -/
def BufWriter.WriteString {σ : Type} (b : BufWriter σ) (s : GoString) :
    BufWriter σ × Option GoString :=
  match b.err with
  | some e => (b, some e)
  | none => ({ b with buf := b.buf ++ s }, none)

/-- The method `Flush` of `bufio.Writer`: with an error kept or nothing pending
it does nothing; otherwise the pending bytes go to the underlying writer in one
`Write`, and a short or failed write is kept as the error. -/
def BufWriter.Flush {σ : Type} (W : IoWriter σ) (b : BufWriter σ) :
    BufWriter σ × Option GoString :=
  match b.err with
  | some e => (b, some e)
  | none =>
    if b.buf = [] then (b, none)
    else
      match W.Write b.wr b.buf with
      | (wr, n, err) =>
        let err := if n < b.buf.length ∧ err = none then some "short write".toList else err
        match err with
        | some e => (⟨wr, b.buf.drop n, some e⟩, some e)
        | none => (⟨wr, [], none⟩, none)

/-- The method `Write` of `csv.Writer`: the encoding of the record is written to the
buffered writer, and the first error of that writer is returned. -/
def csvWrite {σ : Type} (w : BufWriter σ) (record : List GoString) :
    BufWriter σ × Option GoString :=
  w.WriteString (encodeRecord record)

/-- The method `Flush` of `csv.Writer`: it flushes the buffered writer and
returns nothing. -/
def csvFlush {σ : Type} (W : IoWriter σ) (w : BufWriter σ) : BufWriter σ :=
  (w.Flush W).1

/-- A sink that records what it is given. With `room = none` it takes every
write; with `room = some k` it takes `k` more code points and fails the write
that exceeds them. -/
structure Sink where
  received : GoString
  room : Option Nat
  deriving DecidableEq, Repr

/-- The `Write` of a `Sink`. -/
def Sink.Write (s : Sink) (p : GoString) : Sink × Nat × Option GoString :=
  match s.room with
  | none => (⟨s.received ++ p, none⟩, p.length, none)
  | some k =>
    if p.length ≤ k then (⟨s.received ++ p, some (k - p.length)⟩, p.length, none)
    else (⟨s.received ++ p.take k, some 0⟩, k, some "write: broken pipe".toList)

/-- A `Sink` as an `io.Writer`. -/
def sinkWriter : IoWriter Sink :=
  ⟨Sink.Write⟩

/-- A `http.ResponseWriter`: the status line is absent until the header is
sent, then fixed. -/
structure ResponseWriter where
  status : Option Nat
  body : GoString
  deriving DecidableEq, Repr

/-- A response writer nothing has been written to. -/
def ResponseWriter.fresh : ResponseWriter :=
  ⟨none, []⟩

/-- The method `WriteHeader`: the first call fixes the status, a later call is
superfluous and changes nothing. -/
def ResponseWriter.WriteHeader (w : ResponseWriter) (code : Nat) : ResponseWriter :=
  match w.status with
  | some _ => w
  | none => { w with status := some code }

/-- The method `Write`: if the header was not sent yet it is sent with status
200, then the bytes are added to the body. -/
def ResponseWriter.Write (w : ResponseWriter) (p : GoString) :
    ResponseWriter × Nat × Option GoString :=
  let w := w.WriteHeader 200
  ({ w with body := w.body ++ p }, p.length, none)

/-- A `ResponseWriter` as an `io.Writer`. -/
def responseWriter : IoWriter ResponseWriter :=
  ⟨ResponseWriter.Write⟩

/-! ## The database (`database/sql`) -/

/-- What the cursor gives for one row that `rows.Next` announced: the values of
the row, each `NULL` (`none`) or its text, or a row that cannot be read. -/
inductive RowEvent where
  | values (vs : List (Option GoString))
  | broken (e : GoString)
  deriving DecidableEq, Repr

/-- A result cursor (`*sql.Rows`): the answer of `Columns`, the rows that `Next`
announces before it returns false, and the error that made `Next` return false
(`rows.Err()`), `none` when the rows were exhausted. -/
structure Cursor where
  columns : Except GoString (List GoString)
  rows : List RowEvent
  err : Option GoString

/-- The database as the program meets it: the error of `sql.Open` for a data
source name, and the answer of `db.Query` for a statement. -/
structure Database where
  sqlOpen : GoString → Option GoString
  query : GoString → Except GoString Cursor

/-- What `runQuery` does to connection handles and cursors, in order. -/
inductive Event where
  | connOpened
  | connFailed
  | cursorOpened
  | cursorFailed
  | rowsClose
  | dbClose
  deriving DecidableEq, Repr

/-- The data source name that `runQuery` formats for `sql.Open`. -/
def dataSourceName (config : Config) : GoString :=
  config.Database.Username ++ ":".toList ++ config.Database.Password ++ "@tcp(".toList
    ++ config.Database.Host ++ ":".toList ++ (toString config.Database.Port).toList
    ++ ")/".toList ++ config.Database.Name
    ++ "?charset=utf8mb4&parseTime=True&loc=Local".toList

/-- The call `rows.Scan(rowPtr...)` with `dest` destinations, each a pointer to
a `*string`: a row with as many values as destinations fills them, `NULL` as the
nil pointer; any other row is an error. -/
def scan (dest : Nat) : RowEvent → Except GoString (List (Option GoString))
  | .broken e => .error e
  | .values vs =>
    if vs.length = dest then .ok vs
    else .error ("sql: expected ".toList ++ (toString vs.length).toList
      ++ " destination arguments in Scan, not ".toList ++ (toString dest).toList)

/-- The loop `for i, str := range rowString` of `runQuery`: position `i` of
`rowStringNull` becomes `null` for a nil pointer and the string pointed to
otherwise. -/
def fillNulls : List (Option GoString) → Nat → List GoString → List GoString
  | [], _, rowStringNull => rowStringNull
  | str :: rest, i, rowStringNull =>
    match str with
    | none => fillNulls rest (i + 1) (rowStringNull.set i "null".toList)
    | some s => fillNulls rest (i + 1) (rowStringNull.set i s)

/-- The loop `for rows.Next()` of `runQuery`. A row that does not scan ends the
function with an error; when `Next` returns false the loop is left, whatever
made it return false. -/
def rowLoop {σ : Type} (dest : Nat) :
    List RowEvent → List GoString → BufWriter σ → Option GoString × BufWriter σ
  | [], _, csvWriter => (none, csvWriter)
  | ev :: rest, rowStringNull, csvWriter =>
    match scan dest ev with
    | .error e => (some ("error getting fetching columns: ".toList ++ e), csvWriter)
    | .ok rowString =>
      let rowStringNull := fillNulls rowString 0 rowStringNull
      let csvWriter := (csvWrite csvWriter rowStringNull).1
      rowLoop dest rest rowStringNull csvWriter

/-- The part of `runQuery` from `csv.NewWriter(w)` to the end, with its deferred
`csvWriter.Flush()`. -/
def streamRows {σ : Type} (W : IoWriter σ) (c : List GoString) (rows : Cursor) (w : σ) :
    Option GoString × σ :=
  let csvWriter := NewWriter w
  let csvWriter := (csvWrite csvWriter c).1
  let rowStringNull : List GoString := List.replicate c.length []
  let res := rowLoop c.length rows.rows rowStringNull csvWriter
  (res.1, (csvFlush W res.2).wr)

/-- The result of a call of `runQuery`: the error it returns, the writer as it
leaves it, and what it did to handles and cursors. -/
structure RunResult (σ : Type) where
  err : Option GoString
  w : σ
  log : List Event

/-- The part of `runQuery` after `db.Query` succeeded, with its deferred
`rows.Close()`. -/
def runQueryRows {σ : Type} (W : IoWriter σ) (rows : Cursor) (w : σ) : RunResult σ :=
  match rows.columns with
  | .error e => ⟨some ("error getting columns name: ".toList ++ e), w, [Event.rowsClose]⟩
  | .ok c =>
    let res := streamRows W c rows w
    ⟨res.1, res.2, [Event.rowsClose]⟩

/-- The part of `runQuery` after `sql.Open` succeeded, with its deferred
`db.Close()`. -/
def runQueryDb {σ : Type} (W : IoWriter σ) (db : Database) (w : σ) (query : GoString) :
    RunResult σ :=
  match db.query query with
  | .error e => ⟨some ("error running query: ".toList ++ e), w, [Event.cursorFailed, Event.dbClose]⟩
  | .ok rows =>
    let res := runQueryRows W rows w
    ⟨res.err, res.w, Event.cursorOpened :: res.log ++ [Event.dbClose]⟩

/-- The function `func runQuery(config *Config, w io.Writer, query string) error`. -/
def runQuery {σ : Type} (W : IoWriter σ) (db : Database) (config : Config) (w : σ)
    (query : GoString) : RunResult σ :=
  match db.sqlOpen (dataSourceName config) with
  | some e => ⟨some ("error connecting to database: ".toList ++ e), w, [Event.connFailed]⟩
  | none =>
    let res := runQueryDb W db w query
    ⟨res.err, res.w, Event.connOpened :: res.log⟩

/-! ## The HTTP handlers registered in `main` -/

/-- The part of a `*http.Request` the handlers can look at. -/
structure Request where
  method : GoString
  /-- The parameters of the query string of the URL, in order -/
  query : List (GoString × GoString)
  deriving DecidableEq, Repr

/-- The call `r.URL.Query().Get(key)`: the first value of the key, or the empty
string. -/
def Request.get (r : Request) (key : GoString) : GoString :=
  match r.query.find? (fun kv => kv.1 = key) with
  | some kv => kv.2
  | none => []

/-- How a handler ends. -/
inductive Completion where
  | returned
  | panicked
  deriving DecidableEq, Repr

/-- What serving one request left behind. -/
structure Served where
  w : ResponseWriter
  log : List Event
  completion : Completion
  deriving DecidableEq, Repr

/-- The handler of `/query`. In the branch taken when `runQuery` returns an
error, `err` is still the error of `getQuery`, and `err.Error()` on a nil error
panics. -/
def queryHandler (t : CaseTables) (db : Database) (config : Config) (w : ResponseWriter)
    (r : Request) : Served :=
  match config.getQuery t (r.get "id".toList) with
  | (query, err) =>
    if err ≠ none then
      let w := w.WriteHeader 404
      let w := (w.Write "404 - Not Found".toList).1
      ⟨w, [], .returned⟩
    else
      match query with
      | none => ⟨w, [], .panicked⟩
      | some q =>
        let res := runQuery responseWriter db config w q.Query
        if res.err ≠ none then
          match err with
          | none => ⟨res.w, res.log, .panicked⟩
          | some e => ⟨(res.w.Write e).1, res.log, .returned⟩
        else ⟨res.w, res.log, .returned⟩

/-- The handler of `/health`. It is a closure of `main` like the handler of
`/query`, so the database and the configuration are in its reach; its body
names neither, nor the request. -/
def healthHandler (_db : Database) (_config : Config) (w : ResponseWriter) (_r : Request) :
    Served :=
  let w := (w.Write "ok".toList).1
  let w := w.WriteHeader 202
  let w := (w.Write "200 - Healthy!".toList).1
  ⟨w, [], .returned⟩

/-! ## Notions of the specification -/

/-- The text of one value in a CSV row: the literal `null` for `NULL`, the
text of the value otherwise. -/
def renderValue : Option GoString → GoString
  | none => "null".toList
  | some s => s

/-- The CSV body for a column list and the rows read: the header, then one
record per row, in order. -/
def csvBody (cols : List GoString) (rows : List (List (Option GoString))) : GoString :=
  encodeRecord cols ++ (rows.map (fun vs => encodeRecord (vs.map renderValue))).flatten

/-- A letter-casing variant of a string: every character is kept, or replaced by
its upper case, or replaced by its lower case. -/
def caseVariant (t : CaseTables) : GoString → GoString → Bool
  | [], [] => true
  | c :: n, d :: id =>
    (d = c ∨ d = toUpperRune t c ∨ d = toLowerRune t c) && caseVariant t n id
  | _, _ => false

/-- A letter-casing variant in which every replaced character has the lower case
of the character it replaces. -/
def stableVariant (t : CaseTables) : GoString → GoString → Bool
  | [], [] => true
  | c :: n, d :: id =>
    (d = c ∨ ((d = toUpperRune t c ∨ d = toLowerRune t c) ∧ toLowerRune t d = toLowerRune t c))
      && stableVariant t n id
  | _, _ => false

/-- A letter-casing variant in the ASCII letters: every character is kept, or
is an ASCII letter replaced by the same letter in the other case. -/
def asciiVariant : GoString → GoString → Bool
  | [], [] => true
  | c :: n, d :: id =>
    (d = c ∨ (65 ≤ c.toNat ∧ c.toNat ≤ 90 ∧ d.toNat = c.toNat + 32)
      ∨ (97 ≤ c.toNat ∧ c.toNat ≤ 122 ∧ d.toNat + 32 = c.toNat)) && asciiVariant n id
  | _, _ => false

/-- Where a reader of one CSV record stands. -/
inductive ParseState where
  | fieldStart
  | unquoted
  | quoted
  | quoteSeen
  | crSeen
  deriving DecidableEq, Repr

/-- A reader of one CSV record after RFC 4180, section 2: fields are separated
by commas; a field is either enclosed in double quotes, and then may hold
commas, line breaks and doubled double quotes, or holds none of comma, double
quote, carriage return and line feed; the record ends with its line break, CRLF
or a bare LF, and nothing follows. `cur` is the field being read, `acc` the
fields read. -/
def parseFrom : ParseState → GoString → List GoString → GoString → Option (List GoString)
  | _, _, _, [] => none
  | .fieldStart, _, acc, c :: rest =>
    if c = dquote then parseFrom .quoted [] acc rest
    else if c = comma then parseFrom .fieldStart [] (acc ++ [[]]) rest
    else if c = lf then (if rest = [] then some (acc ++ [[]]) else none)
    else if c = cr then parseFrom .crSeen [] acc rest
    else parseFrom .unquoted [c] acc rest
  | .unquoted, cur, acc, c :: rest =>
    if c = dquote then none
    else if c = comma then parseFrom .fieldStart [] (acc ++ [cur]) rest
    else if c = lf then (if rest = [] then some (acc ++ [cur]) else none)
    else if c = cr then parseFrom .crSeen cur acc rest
    else parseFrom .unquoted (cur ++ [c]) acc rest
  | .quoted, cur, acc, c :: rest =>
    if c = dquote then parseFrom .quoteSeen cur acc rest
    else parseFrom .quoted (cur ++ [c]) acc rest
  | .quoteSeen, cur, acc, c :: rest =>
    if c = dquote then parseFrom .quoted (cur ++ [dquote]) acc rest
    else if c = comma then parseFrom .fieldStart [] (acc ++ [cur]) rest
    else if c = lf then (if rest = [] then some (acc ++ [cur]) else none)
    else if c = cr then parseFrom .crSeen cur acc rest
    else none
  | .crSeen, cur, acc, c :: rest =>
    if c = lf ∧ rest = [] then some (acc ++ [cur]) else none

/-- The fields of the one record a CSV line holds, if it is one record. -/
def parseRecord (line : GoString) : Option (List GoString) :=
  parseFrom .fieldStart [] [] line

/-! ## Sample data -/

/-- A configuration with the one definition of the first scenario of the
specification. -/
def usersConfig : Config :=
  ⟨⟨"localhost".toList, 3306, "exporter".toList, "secret".toList, "shop".toList⟩,
    [⟨"Users".toList, "SELECT id, name FROM users".toList⟩]⟩

/-- A configuration in which two definitions share a name up to letter case. -/
def twiceConfig : Config :=
  ⟨usersConfig.Database,
    [⟨"Orders".toList, "SELECT id FROM orders".toList⟩,
     ⟨"Users".toList, "SELECT id, name FROM users".toList⟩,
     ⟨"USERS".toList, "SELECT 1".toList⟩]⟩

/-- A configuration whose one definition is named with U+017F alone. -/
def longSConfig : Config :=
  ⟨usersConfig.Database, [⟨[Char.ofNat 383], "SELECT 1".toList⟩]⟩

/-- The columns of the third scenario of the specification. -/
def usersColumns : List GoString :=
  ["id".toList, "name".toList]

/-- A database whose every statement gives the two rows of the third
scenario of the specification. -/
def usersDb : Database :=
  ⟨fun _ => none, fun _ => .ok ⟨.ok usersColumns,
    [.values [some "1".toList, some "Alice".toList], .values [some "2".toList, none]], none⟩⟩

/-- A database whose second row cannot be read. -/
def brokenRowDb : Database :=
  ⟨fun _ => none, fun _ => .ok ⟨.ok usersColumns,
    [.values [some "1".toList, some "Alice".toList], .broken "unsupported Scan".toList,
     .values [some "3".toList, some "Carol".toList]], none⟩⟩

/-- A database that loses the connection after the first of its rows: `Next`
returns false and `rows.Err()` holds the error. -/
def lostDb : Database :=
  ⟨fun _ => none, fun _ => .ok ⟨.ok usersColumns,
    [.values [some "1".toList, some "Alice".toList]], some "invalid connection".toList⟩⟩

/-- A database that rejects every statement. -/
def droppedDb : Database :=
  ⟨fun _ => none, fun _ => .error "Table users does not exist".toList⟩

/-- A sink that takes everything. -/
def openSink : Sink :=
  ⟨[], none⟩

/-- A sink that takes ten code points and then fails. -/
def smallSink : Sink :=
  ⟨[], some 10⟩

/-- A request for `/query?id=users`. -/
def usersRequest : Request :=
  ⟨"GET".toList, [("id".toList, "users".toList)]⟩

/-- A request for `/query?id=unknown`. -/
def unknownRequest : Request :=
  ⟨"GET".toList, [("id".toList, "unknown".toList)]⟩


/-! ## The registry: lemmas -/

theorem getQueryLoop_none (t : CaseTables) (id : GoString) (qs : List Queries)
    (h : ∀ q ∈ qs, ToLower t q.Name ≠ ToLower t id) :
    getQueryLoop t id qs = (none, some ("Could not find query ".toList ++ id)) := by
  induction qs with
  | nil => rfl
  | cons q rest ih =>
    have hq : ToLower t q.Name ≠ ToLower t id := h q (List.mem_cons_self q rest)
    have hrest : ∀ p ∈ rest, ToLower t p.Name ≠ ToLower t id :=
      fun p hp => h p (List.mem_cons_of_mem q hp)
    simp [getQueryLoop, hq, ih hrest]

theorem getQueryLoop_first (t : CaseTables) (id : GoString) (pre : List Queries)
    (q : Queries) (post : List Queries)
    (hpre : ∀ p ∈ pre, ToLower t p.Name ≠ ToLower t id)
    (hq : ToLower t q.Name = ToLower t id) :
    getQueryLoop t id (pre ++ q :: post) = (some q, none) := by
  induction pre with
  | nil => simp [getQueryLoop, hq]
  | cons p rest ih =>
    have hp : ToLower t p.Name ≠ ToLower t id := hpre p (List.mem_cons_self p rest)
    have hrest : ∀ x ∈ rest, ToLower t x.Name ≠ ToLower t id :=
      fun x hx => hpre x (List.mem_cons_of_mem p hx)
    simp [getQueryLoop, hp, ih hrest]

theorem getQueryLoop_found (t : CaseTables) (id : GoString) (qs : List Queries)
    (q : Queries) (hmem : q ∈ qs) (hq : ToLower t q.Name = ToLower t id) :
    ∃ found, found ∈ qs ∧ ToLower t found.Name = ToLower t id
      ∧ getQueryLoop t id qs = (some found, none) := by
  induction qs with
  | nil => cases hmem
  | cons p rest ih =>
    by_cases hp : ToLower t p.Name = ToLower t id
    · exact ⟨p, List.mem_cons_self p rest, hp, by simp [getQueryLoop, hp]⟩
    · have hin : q ∈ rest := by
        rcases List.mem_cons.mp hmem with h | h
        · exact absurd (h ▸ hq) hp
        · exact h
      obtain ⟨found, hf, hl, he⟩ := ih hin
      exact ⟨found, List.mem_cons_of_mem p hf, hl, by simp [getQueryLoop, hp, he]⟩

theorem stableVariant_lower (t : CaseTables) (n id : GoString)
    (h : stableVariant t n id = true) : ToLower t id = ToLower t n := by
  induction n generalizing id with
  | nil =>
    cases id with
    | nil => rfl
    | cons d id => simp [stableVariant] at h
  | cons c n ih =>
    cases id with
    | nil => simp [stableVariant] at h
    | cons d id =>
      simp only [stableVariant, Bool.and_eq_true, decide_eq_true_eq] at h
      obtain ⟨hd, hrest⟩ := h
      have hc : toLowerRune t d = toLowerRune t c := by
        rcases hd with h1 | h1
        · rw [h1]
        · exact h1.2
      simp only [ToLower, List.map_cons] at ih ⊢
      rw [hc, ih id hrest]

theorem asciiVariant_stable (t : CaseTables) (n id : GoString)
    (h : asciiVariant n id = true) : stableVariant t n id = true := by
  induction n generalizing id with
  | nil =>
    cases id with
    | nil => rfl
    | cons d id => simp [asciiVariant] at h
  | cons c n ih =>
    cases id with
    | nil => simp [asciiVariant] at h
    | cons d id =>
      simp only [asciiVariant, Bool.and_eq_true, decide_eq_true_eq] at h
      obtain ⟨hd, hrest⟩ := h
      simp only [stableVariant, Bool.and_eq_true, decide_eq_true_eq]
      refine ⟨?_, ih id hrest⟩
      rcases hd with h1 | ⟨h1, h2, h3⟩ | ⟨h1, h2, h3⟩
      · exact Or.inl h1
      · right
        have hd2 : d = Char.ofNat (c.toNat + 32) := by
          rw [← h3, Char.ofNat_toNat]
        have e1 : toLowerRune t c = Char.ofNat (c.toNat + 32) := by
          simp only [toLowerRune]
          rw [if_pos (by omega), if_pos ⟨h1, h2⟩]
        have e2 : toLowerRune t d = d := by
          simp only [toLowerRune]
          rw [if_pos (by omega), if_neg (by omega)]
        exact ⟨Or.inr (by rw [e1, hd2]), by rw [e2, e1, hd2]⟩
      · right
        have hd2 : d = Char.ofNat (c.toNat - 32) := by
          have : c.toNat - 32 = d.toNat := by omega
          rw [this, Char.ofNat_toNat]
        have e1 : toUpperRune t c = Char.ofNat (c.toNat - 32) := by
          simp only [toUpperRune]
          rw [if_pos (by omega), if_pos ⟨h1, h2⟩]
        have e2 : toLowerRune t d = Char.ofNat (d.toNat + 32) := by
          simp only [toLowerRune]
          rw [if_pos (by omega), if_pos (by omega)]
        have e3 : toLowerRune t c = c := by
          simp only [toLowerRune]
          rw [if_pos (by omega), if_neg (by omega)]
        refine ⟨Or.inl (by rw [e1, hd2]), ?_⟩
        rw [e2, e3, h3, Char.ofNat_toNat]


/-! ## The result streamer: lemmas -/

theorem scan_ok_length (dest : Nat) (ev : RowEvent) (vs : List (Option GoString))
    (h : scan dest ev = .ok vs) : vs.length = dest := by
  cases ev with
  | broken e => simp [scan] at h
  | values ws =>
    by_cases hl : ws.length = dest
    · simp [scan, hl] at h
      rw [← h, hl]
    · simp [scan, hl] at h

theorem fillNulls_length (strs : List (Option GoString)) (i : Nat) (out : List GoString) :
    (fillNulls strs i out).length = out.length := by
  induction strs generalizing i out with
  | nil => rfl
  | cons str rest ih =>
    cases str <;> simp [fillNulls, ih]

theorem fillNulls_from (strs : List (Option GoString)) (i : Nat) (out : List GoString)
    (h : out.length = i + strs.length) :
    fillNulls strs i out = out.take i ++ strs.map renderValue := by
  induction strs generalizing i out with
  | nil =>
    simp only [List.length_nil, Nat.add_zero] at h
    simp [fillNulls, ← h]
  | cons str rest ih =>
    have hlen : ∀ v : GoString, (out.set i v).length = i + 1 + rest.length := by
      intro v
      simp only [List.length_set, h, List.length_cons]
      omega
    have hi : i < out.length := by
      simp only [h, List.length_cons]
      omega
    have htake : ∀ v : GoString, (out.set i v).take (i + 1) = out.take i ++ [v] := by
      intro v
      rw [List.take_succ, List.set_take, List.set_eq_of_length_le (by simp)]
      simp [hi]
    cases str with
    | none =>
      simp only [fillNulls]
      rw [ih (i + 1) _ (hlen _), htake]
      simp [renderValue]
    | some s =>
      simp only [fillNulls]
      rw [ih (i + 1) _ (hlen _), htake]
      simp [renderValue]

theorem fillNulls_all (strs : List (Option GoString)) (out : List GoString)
    (h : out.length = strs.length) : fillNulls strs 0 out = strs.map renderValue := by
  rw [fillNulls_from strs 0 out (by omega)]
  simp

/-- The text the rows read so far add to the buffer of the writer. -/
theorem rowLoop_append {σ : Type} (dest : Nat) (pre : List RowEvent)
    (vals : List (List (Option GoString))) (tail : List RowEvent)
    (hpre : pre.map (scan dest) = vals.map Except.ok) (rowStringNull : List GoString)
    (hlen : rowStringNull.length = dest) (wr : σ) (buf : GoString) :
    ∃ rsn : List GoString, rsn.length = dest ∧
      rowLoop dest (pre ++ tail) rowStringNull ⟨wr, buf, none⟩
        = rowLoop dest tail rsn
            ⟨wr, buf ++ (vals.map (fun vs => encodeRecord (vs.map renderValue))).flatten, none⟩ := by
  induction pre generalizing vals rowStringNull buf with
  | nil =>
    cases vals with
    | nil => exact ⟨rowStringNull, hlen, by simp⟩
    | cons v vs => simp at hpre
  | cons ev rest ih =>
    cases vals with
    | nil => simp at hpre
    | cons v vs =>
      simp only [List.map_cons, List.cons.injEq] at hpre
      obtain ⟨hev, hrest⟩ := hpre
      have hv : v.length = dest := scan_ok_length dest ev v hev
      have hfill : fillNulls v 0 rowStringNull = v.map renderValue :=
        fillNulls_all v rowStringNull (by rw [hlen, hv])
      obtain ⟨rsn, hrsn, heq⟩ := ih vs hrest (v.map renderValue) (by simp [hv])
        (buf ++ encodeRecord (v.map renderValue))
      refine ⟨rsn, hrsn, ?_⟩
      rw [List.cons_append]
      simp only [rowLoop, hev, hfill, csvWrite, BufWriter.WriteString]
      rw [heq]
      simp [List.append_assoc]

theorem flush_openSink (received buf : GoString) :
    (csvFlush sinkWriter ⟨⟨received, none⟩, buf, none⟩).wr = ⟨received ++ buf, none⟩ := by
  by_cases hb : buf = []
  · simp [csvFlush, BufWriter.Flush, hb]
  · simp [csvFlush, BufWriter.Flush, hb, sinkWriter, Sink.Write]

theorem streamRows_ok (c : List GoString) (rows : Cursor)
    (vals : List (List (Option GoString)))
    (hrows : rows.rows.map (scan c.length) = vals.map Except.ok) (received : GoString) :
    streamRows sinkWriter c rows ⟨received, none⟩
      = (none, ⟨received ++ csvBody c vals, none⟩) := by
  obtain ⟨rsn, _, heq⟩ := rowLoop_append c.length rows.rows vals [] (by simpa using hrows)
    (List.replicate c.length []) (by simp) (⟨received, none⟩ : Sink) ([] ++ encodeRecord c)
  simp only [List.append_nil, List.nil_append] at heq
  simp only [streamRows, NewWriter, csvWrite, BufWriter.WriteString, List.nil_append, heq,
    rowLoop, flush_openSink, csvBody]

theorem streamRows_broken (c : List GoString) (rows : Cursor)
    (pre : List RowEvent) (bad : RowEvent) (post : List RowEvent) (e : GoString)
    (vals : List (List (Option GoString)))
    (hsplit : rows.rows = pre ++ bad :: post)
    (hpre : pre.map (scan c.length) = vals.map Except.ok)
    (hbad : scan c.length bad = .error e) (received : GoString) :
    streamRows sinkWriter c rows ⟨received, none⟩
      = (some ("error getting fetching columns: ".toList ++ e),
          ⟨received ++ csvBody c vals, none⟩) := by
  obtain ⟨rsn, _, heq⟩ := rowLoop_append c.length pre vals (bad :: post) hpre
    (List.replicate c.length []) (by simp) (⟨received, none⟩ : Sink) ([] ++ encodeRecord c)
  simp only [List.nil_append] at heq
  simp only [streamRows, NewWriter, csvWrite, BufWriter.WriteString, List.nil_append, hsplit,
    heq, rowLoop, hbad, flush_openSink, csvBody]

theorem runQuery_log {σ : Type} (W : IoWriter σ) (db : Database) (config : Config) (w : σ)
    (query : GoString) :
    (runQuery W db config w query).log = [Event.connFailed]
      ∨ (runQuery W db config w query).log = [Event.connOpened, Event.cursorFailed, Event.dbClose]
      ∨ (runQuery W db config w query).log
          = [Event.connOpened, Event.cursorOpened, Event.rowsClose, Event.dbClose] := by
  rcases h1 : db.sqlOpen (dataSourceName config) with _ | e
  · rcases h2 : db.query query with e | rows
    · simp [runQuery, runQueryDb, h1, h2]
    · rcases h3 : rows.columns with e | c <;> simp [runQuery, runQueryDb, runQueryRows, h1, h2, h3]
  · simp [runQuery, h1]


/-! ## CSV: what is written reads back -/

theorem not_special (c : Char) (h : isSpecial c = false) :
    c ≠ lf ∧ c ≠ cr ∧ c ≠ dquote ∧ c ≠ comma := by
  simp only [isSpecial, decide_eq_false_iff_not, not_or] at h
  exact h

theorem parseFrom_quoteBody (f cur : GoString) (acc : List GoString) (rest : GoString) :
    parseFrom .quoted cur acc (quoteBody f ++ rest) = parseFrom .quoted (cur ++ f) acc rest := by
  induction f generalizing cur with
  | nil => simp [quoteBody]
  | cons c f ih =>
    by_cases hc : c = dquote
    · subst hc
      simp only [quoteBody, if_true, List.cons_append, List.nil_append]
      simp only [parseFrom, if_true]
      rw [ih]
      simp
    · simp only [quoteBody, hc, if_false, List.cons_append, List.nil_append]
      simp only [parseFrom, hc, if_false]
      rw [ih]
      simp

theorem parseFrom_plain (f cur : GoString) (acc : List GoString) (rest : GoString)
    (hf : ∀ c ∈ f, isSpecial c = false) :
    parseFrom .unquoted cur acc (f ++ rest) = parseFrom .unquoted (cur ++ f) acc rest := by
  induction f generalizing cur with
  | nil => simp
  | cons c f ih =>
    obtain ⟨h1, h2, h3, h4⟩ := not_special c (hf c (List.mem_cons_self c f))
    simp only [List.cons_append]
    simp only [parseFrom, h1, h2, h3, h4, if_false]
    rw [ih _ (fun x hx => hf x (List.mem_cons_of_mem c hx))]
    simp

theorem plain_of_not_needsQuotes (f : GoString) (h : fieldNeedsQuotes f = false) :
    ∀ c ∈ f, isSpecial c = false := by
  intro c hc
  by_cases hnil : f = []
  · subst hnil
    cases hc
  · by_cases hdot : f = [Char.ofNat 92, '.']
    · simp [fieldNeedsQuotes, hdot] at h
    · by_cases hany : f.any isSpecial = true
      · simp [fieldNeedsQuotes, hnil, hdot, hany] at h
      · have hall : ∀ x ∈ f, isSpecial x = false := by
          intro x hx
          by_contra hx2
          exact hany (List.any_eq_true.mpr ⟨x, hx, by simpa using hx2⟩)
        exact hall c hc

/-- From the start of a field, the encoded field followed by a comma is read as
that field. -/
theorem parseFrom_field_comma (f : GoString) (acc : List GoString) (rest : GoString) :
    parseFrom .fieldStart [] acc (encodeField f ++ comma :: rest)
      = parseFrom .fieldStart [] (acc ++ [f]) rest := by
  by_cases hq : fieldNeedsQuotes f = true
  · have hdc : ¬ comma = dquote := by decide
    simp only [encodeField, hq, if_true, List.cons_append, List.nil_append, List.append_assoc]
    simp only [parseFrom, if_true, parseFrom_quoteBody, hdc, if_false, List.nil_append]
  · have hq2 : fieldNeedsQuotes f = false := by simpa using hq
    have hplain := plain_of_not_needsQuotes f hq2
    cases f with
    | nil =>
      have hdc : ¬ comma = dquote := by decide
      simp [encodeField, fieldNeedsQuotes, parseFrom, hdc]
    | cons c f =>
      obtain ⟨h1, h2, h3, h4⟩ := not_special c (hplain c (List.mem_cons_self c f))
      have hdc : ¬ comma = dquote := by decide
      simp only [encodeField, hq2, Bool.false_eq_true, if_false, List.cons_append]
      simp only [parseFrom, h1, h2, h3, h4, if_false]
      rw [parseFrom_plain f [c] acc (comma :: rest)
        (fun x hx => hplain x (List.mem_cons_of_mem c hx))]
      simp [parseFrom, hdc]

/-- From the start of a field, the encoded field followed by the line feed that
ends the line is read as the last field. -/
theorem parseFrom_field_lf (f : GoString) (acc : List GoString) :
    parseFrom .fieldStart [] acc (encodeField f ++ [lf]) = some (acc ++ [f]) := by
  have hld : ¬ lf = dquote := by decide
  have hlc : ¬ lf = comma := by decide
  by_cases hq : fieldNeedsQuotes f = true
  · simp only [encodeField, hq, if_true, List.cons_append, List.nil_append, List.append_assoc]
    simp only [parseFrom, if_true, parseFrom_quoteBody, hld, hlc, if_false, List.nil_append]
  · have hq2 : fieldNeedsQuotes f = false := by simpa using hq
    have hplain := plain_of_not_needsQuotes f hq2
    cases f with
    | nil => simp [encodeField, fieldNeedsQuotes, parseFrom, hld, hlc]
    | cons c f =>
      obtain ⟨h1, h2, h3, h4⟩ := not_special c (hplain c (List.mem_cons_self c f))
      simp only [encodeField, hq2, Bool.false_eq_true, if_false, List.cons_append]
      simp only [parseFrom, h1, h2, h3, h4, if_false]
      rw [parseFrom_plain f [c] acc [lf] (fun x hx => hplain x (List.mem_cons_of_mem c hx))]
      simp [parseFrom, hld, hlc]

theorem parseFrom_fields (f : GoString) (rest : List GoString) (n : Nat)
    (acc : List GoString) :
    parseFrom .fieldStart [] acc (encodeField f ++ encodeFields (n + 1) rest ++ [lf])
      = some (acc ++ f :: rest) := by
  induction rest generalizing f n acc with
  | nil => simp [encodeFields, parseFrom_field_lf]
  | cons g rest ih =>
    have h := ih g (n + 1) (acc ++ [f])
    simp only [encodeFields, Nat.succ_pos, if_true, gt_iff_lt, List.append_assoc,
      List.cons_append, List.nil_append, List.singleton_append] at h ⊢
    rw [parseFrom_field_comma, h]

theorem parseRecord_encodeRecord (f : GoString) (rest : List GoString) :
    parseRecord (encodeRecord (f :: rest)) = some (f :: rest) := by
  have h := parseFrom_fields f rest 0 []
  simp only [List.nil_append, Nat.zero_add] at h
  simp only [parseRecord, encodeRecord, encodeFields, gt_iff_lt, Nat.lt_irrefl, if_false,
    List.nil_append, List.append_assoc] at h ⊢
  exact h


/-! ## The claims -/

/-- C1: when the connection opens, the statement executes, the columns are
retrieved and every row scans, `runQuery` returns nil, and a sink that takes
every write has received, after what it held before, exactly the CSV record of
the column names followed by the CSV record of every row in cursor order, a
`NULL` value written as `null` and any other value as its text. -/
theorem runQuery_streams_header_and_rows (db : Database) (config : Config) (query : GoString)
    (rows : Cursor) (cols : List GoString) (vals : List (List (Option GoString)))
    (received : GoString)
    (hopen : db.sqlOpen (dataSourceName config) = none)
    (hquery : db.query query = .ok rows)
    (hcols : rows.columns = .ok cols)
    (hscan : rows.rows.map (scan cols.length) = vals.map Except.ok) :
    (runQuery sinkWriter db config ⟨received, none⟩ query).err = none
      ∧ (runQuery sinkWriter db config ⟨received, none⟩ query).w
          = ⟨received ++ encodeRecord cols
              ++ (vals.map (fun vs => encodeRecord (vs.map renderValue))).flatten, none⟩ := by
  have h := streamRows_ok cols rows vals hscan received
  simp only [csvBody] at h
  simp [runQuery, runQueryDb, runQueryRows, hopen, hquery, hcols, h]

/-- The third scenario of the specification: columns `(id, name)` and the rows
`(1, Alice)`, `(2, NULL)` give `id,name\n1,Alice\n2,null\n`. -/
theorem runQuery_streams_header_and_rows_witness :
    (runQuery sinkWriter usersDb usersConfig openSink "SELECT id, name FROM users".toList).err
        = none
      ∧ (runQuery sinkWriter usersDb usersConfig openSink "SELECT id, name FROM users".toList).w
          = ⟨"id,name\n1,Alice\n2,null\n".toList, none⟩ :=
  runQuery_streams_header_and_rows usersDb usersConfig "SELECT id, name FROM users".toList
    ⟨.ok usersColumns,
      [.values [some "1".toList, some "Alice".toList], .values [some "2".toList, none]], none⟩
    usersColumns [[some "1".toList, some "Alice".toList], [some "2".toList, none]] []
    rfl rfl rfl rfl

/-- C2 as stated fails: `S` is the upper case of `ſ` (U+017F), so it is a
letter-casing variant of the name `ſ`, but the two lower-case to different
strings and `getQuery` does not find the definition. -/
theorem getQuery_misses_upper_case_of_long_s :
    (⟨[Char.ofNat 383], "SELECT 1".toList⟩ : Queries) ∈ longSConfig.Queries
      ∧ ToUpper longSTables [Char.ofNat 383] = "S".toList
      ∧ caseVariant longSTables [Char.ofNat 383] "S".toList = true
      ∧ longSConfig.getQuery longSTables "S".toList
          = (none, some "Could not find query S".toList) := by
  decide

/-- C2, amended: if the registry holds a definition named `n` and `id` is a
letter-casing variant of `n` in which every replaced character has the same
lower case as the character it replaces, `getQuery` returns a nil error and a
definition whose name equals `n` up to letter case. -/
theorem getQuery_finds_stable_variant (t : CaseTables) (config : Config) (q : Queries)
    (id : GoString) (hmem : q ∈ config.Queries) (hvar : stableVariant t q.Name id = true) :
    ∃ found, config.getQuery t id = (some found, none)
      ∧ ToLower t found.Name = ToLower t q.Name := by
  have hlow : ToLower t q.Name = ToLower t id := (stableVariant_lower t q.Name id hvar).symm
  obtain ⟨found, _, hf, he⟩ := getQueryLoop_found t id config.Queries q hmem hlow
  exact ⟨found, he, by rw [hf, hlow]⟩

/-- The first scenario of the specification: the name `Users` and the
identifier `users`. -/
theorem getQuery_finds_stable_variant_witness :
    (⟨"Users".toList, "SELECT id, name FROM users".toList⟩ : Queries) ∈ usersConfig.Queries
      ∧ stableVariant asciiTables "Users".toList "users".toList = true
      ∧ ∃ found, usersConfig.getQuery asciiTables "users".toList = (some found, none)
          ∧ ToLower asciiTables found.Name = ToLower asciiTables "Users".toList :=
  ⟨by decide, by decide,
    getQuery_finds_stable_variant asciiTables usersConfig
      ⟨"Users".toList, "SELECT id, name FROM users".toList⟩ "users".toList
      (by decide) (by decide)⟩

/-- C3: if the identifier equals the name of no definition after lower-casing both,
`getQuery` returns a nil pointer and a non-nil error, and for every request that
carries this identifier the `/query` handler returns normally with status 404
and the body `404 - Not Found`, and nothing was done to the database. -/
theorem unknown_id_gives_404 (t : CaseTables) (config : Config) (id : GoString)
    (h : ∀ q ∈ config.Queries, ToLower t q.Name ≠ ToLower t id) :
    (config.getQuery t id).1 = none ∧ (config.getQuery t id).2 ≠ none
      ∧ ∀ (db : Database) (r : Request), r.get "id".toList = id →
          queryHandler t db config ResponseWriter.fresh r
            = ⟨⟨some 404, "404 - Not Found".toList⟩, [], .returned⟩ := by
  have hg := getQueryLoop_none t id config.Queries h
  refine ⟨by simp [Config.getQuery, hg], by simp [Config.getQuery, hg], ?_⟩
  intro db r hr
  subst hr
  unfold queryHandler Config.getQuery
  rw [hg]
  simp [ResponseWriter.fresh, ResponseWriter.WriteHeader, ResponseWriter.Write]

/-- The second scenario of the specification: the registry holds `Users` and
the request is `/query?id=unknown`, against a database that would answer. -/
theorem unknown_id_gives_404_witness :
    (∀ q ∈ usersConfig.Queries,
        ToLower asciiTables q.Name ≠ ToLower asciiTables "unknown".toList)
      ∧ unknownRequest.get "id".toList = "unknown".toList
      ∧ (usersConfig.getQuery asciiTables "unknown".toList).1 = none
      ∧ (usersConfig.getQuery asciiTables "unknown".toList).2 ≠ none
      ∧ queryHandler asciiTables usersDb usersConfig ResponseWriter.fresh unknownRequest
          = ⟨⟨some 404, "404 - Not Found".toList⟩, [], .returned⟩ :=
  ⟨by decide, by decide,
    (unknown_id_gives_404 asciiTables usersConfig "unknown".toList (by decide)).1,
    (unknown_id_gives_404 asciiTables usersConfig "unknown".toList (by decide)).2.1,
    (unknown_id_gives_404 asciiTables usersConfig "unknown".toList (by decide)).2.2
      usersDb unknownRequest (by decide)⟩

/-- C4 fails on the code: with the identifier found and the statement rejected
by the database, `runQuery` returns an error, and the handler then calls
`Error()` on the nil error of `getQuery` and panics; no status was set and the
body is empty, so the error text is not in it. -/
theorem queryHandler_panics_when_query_fails :
    (usersConfig.getQuery asciiTables (usersRequest.get "id".toList)).2 = none
      ∧ (runQuery responseWriter droppedDb usersConfig ResponseWriter.fresh
            "SELECT id, name FROM users".toList).err
          = some "error running query: Table users does not exist".toList
      ∧ queryHandler asciiTables droppedDb usersConfig ResponseWriter.fresh usersRequest
          = ⟨⟨none, []⟩, [.connOpened, .cursorFailed, .dbClose], .panicked⟩ := by
  decide

/-- C5: when the rows before row `k` scan and row `k` does not, `runQuery`
returns the error `error getting fetching columns: ...` of that row, and a sink
that takes every write has received, after what it held before, exactly the
header record followed by the complete records of the rows before row `k`. -/
theorem runQuery_stops_at_broken_row (db : Database) (config : Config) (query : GoString)
    (rows : Cursor) (cols : List GoString) (pre : List RowEvent) (bad : RowEvent)
    (post : List RowEvent) (e : GoString) (vals : List (List (Option GoString)))
    (received : GoString)
    (hopen : db.sqlOpen (dataSourceName config) = none)
    (hquery : db.query query = .ok rows)
    (hcols : rows.columns = .ok cols)
    (hsplit : rows.rows = pre ++ bad :: post)
    (hpre : pre.map (scan cols.length) = vals.map Except.ok)
    (hbad : scan cols.length bad = .error e) :
    (runQuery sinkWriter db config ⟨received, none⟩ query).err
        = some ("error getting fetching columns: ".toList ++ e)
      ∧ (runQuery sinkWriter db config ⟨received, none⟩ query).w
          = ⟨received ++ encodeRecord cols
              ++ (vals.map (fun vs => encodeRecord (vs.map renderValue))).flatten, none⟩ := by
  have h := streamRows_broken cols rows pre bad post e vals hsplit hpre hbad received
  simp only [csvBody] at h
  simp [runQuery, runQueryDb, runQueryRows, hopen, hquery, hcols, h]

/-- Three rows of which the second cannot be read: the sink holds the header
and the first row. -/
theorem runQuery_stops_at_broken_row_witness :
    (runQuery sinkWriter brokenRowDb usersConfig openSink "SELECT id, name FROM users".toList).err
        = some "error getting fetching columns: unsupported Scan".toList
      ∧ (runQuery sinkWriter brokenRowDb usersConfig openSink
            "SELECT id, name FROM users".toList).w
          = ⟨"id,name\n1,Alice\n".toList, none⟩ :=
  runQuery_stops_at_broken_row brokenRowDb usersConfig "SELECT id, name FROM users".toList
    ⟨.ok usersColumns,
      [.values [some "1".toList, some "Alice".toList], .broken "unsupported Scan".toList,
       .values [some "3".toList, some "Carol".toList]], none⟩
    usersColumns [.values [some "1".toList, some "Alice".toList]]
    (.broken "unsupported Scan".toList) [.values [some "3".toList, some "Carol".toList]]
    "unsupported Scan".toList [[some "1".toList, some "Alice".toList]] []
    rfl rfl rfl rfl rfl rfl

/-- C6 fails on the code: when `Next` stops on an error after the first row,
`runQuery` returns nil with the header and that row delivered; and when the
sink fails after ten code points, `runQuery` returns nil as well, with the
second row missing and the first one cut. -/
theorem runQuery_returns_nil_on_lost_rows_and_failed_sink :
    (runQuery sinkWriter lostDb usersConfig openSink "SELECT id, name FROM users".toList).err
        = none
      ∧ (runQuery sinkWriter lostDb usersConfig openSink "SELECT id, name FROM users".toList).w
          = ⟨"id,name\n1,Alice\n".toList, none⟩
      ∧ (runQuery sinkWriter usersDb usersConfig smallSink "SELECT id, name FROM users".toList).err
          = none
      ∧ (runQuery sinkWriter usersDb usersConfig smallSink
            "SELECT id, name FROM users".toList).w
          = ⟨"id,name\n1,".toList, some 0⟩ := by
  decide

/-- C7 as stated fails: the record without fields is written as a bare line
feed, the same line as the record whose one field is empty, and it reads back
as that record. -/
theorem empty_record_reads_back_as_one_field :
    (csvWrite (NewWriter openSink) []).1.buf = (csvWrite (NewWriter openSink) [[]]).1.buf
      ∧ parseRecord (csvWrite (NewWriter openSink) []).1.buf = some [[]] := by
  decide

/-- C7, amended: every record with at least one field, as `csv.Writer.Write`
puts it into the buffer of a new writer, reads back under RFC 4180 as exactly
its fields; fields with a comma, a quote, a carriage return or a line feed are
among them. -/
theorem record_reads_back {σ : Type} (w : σ) (record : List GoString) (h : record ≠ []) :
    parseRecord (csvWrite (NewWriter w) record).1.buf = some record := by
  cases record with
  | nil => exact absurd rfl h
  | cons f rest =>
    simp only [csvWrite, NewWriter, BufWriter.WriteString, List.nil_append]
    exact parseRecord_encodeRecord f rest

/-- A record whose first field holds a comma, a double quote and a line feed. -/
theorem record_reads_back_witness :
    (['a', comma, dquote, lf, 'b'] :: ["x".toList, []] ≠ [])
      ∧ (csvWrite (NewWriter openSink) (['a', comma, dquote, lf, 'b'] :: ["x".toList, []])).1.buf
          = [dquote, 'a', comma, dquote, dquote, lf, 'b', dquote, comma, 'x', comma, lf]
      ∧ parseRecord
            (csvWrite (NewWriter openSink) (['a', comma, dquote, lf, 'b'] :: ["x".toList, []])).1.buf
          = some (['a', comma, dquote, lf, 'b'] :: ["x".toList, []]) :=
  ⟨by decide, by decide,
    record_reads_back openSink (['a', comma, dquote, lf, 'b'] :: ["x".toList, []]) (by decide)⟩

/-- C8: whatever the database answers and whatever the writer does, by the time
`runQuery` returns it has closed the connection handle as often as it opened
one and the cursor as often as it opened one; a cursor is always closed before
the handle. -/
theorem runQuery_closes_what_it_opened {σ : Type} (W : IoWriter σ) (db : Database)
    (config : Config) (w : σ) (query : GoString) :
    (runQuery W db config w query).log.count Event.connOpened
        = (runQuery W db config w query).log.count Event.dbClose
      ∧ (runQuery W db config w query).log.count Event.cursorOpened
        = (runQuery W db config w query).log.count Event.rowsClose
      ∧ ((runQuery W db config w query).log = [Event.connFailed]
          ∨ (runQuery W db config w query).log
              = [Event.connOpened, Event.cursorFailed, Event.dbClose]
          ∨ (runQuery W db config w query).log
              = [Event.connOpened, Event.cursorOpened, Event.rowsClose, Event.dbClose]) := by
  have h := runQuery_log W db config w query
  refine ⟨?_, ?_, h⟩
  · rcases h with h | h | h <;> rw [h] <;> decide
  · rcases h with h | h | h <;> rw [h] <;> decide

/-- C9: when the registry is `pre ++ q :: post`, no definition of `pre` has the
name the identifier gives up to letter case and `q` has, `getQuery` returns `q`, name
and statement, with a nil error, whatever `post` holds. -/
theorem getQuery_returns_earliest_match (t : CaseTables) (config : Config) (id : GoString)
    (pre : List Queries) (q : Queries) (post : List Queries)
    (hsplit : config.Queries = pre ++ q :: post)
    (hpre : ∀ p ∈ pre, ToLower t p.Name ≠ ToLower t id)
    (hq : ToLower t q.Name = ToLower t id) :
    config.getQuery t id = (some q, none) := by
  simp only [Config.getQuery, hsplit]
  exact getQueryLoop_first t id pre q post hpre hq

/-- A registry in which `Users` comes before `USERS`: the identifier `users`
gives the statement of `Users`. -/
theorem getQuery_returns_earliest_match_witness :
    ToLower asciiTables "USERS".toList = ToLower asciiTables "users".toList
      ∧ twiceConfig.getQuery asciiTables "users".toList
          = (some ⟨"Users".toList, "SELECT id, name FROM users".toList⟩, none) :=
  ⟨by decide,
    getQuery_returns_earliest_match asciiTables twiceConfig "users".toList
      [⟨"Orders".toList, "SELECT id FROM orders".toList⟩]
      ⟨"Users".toList, "SELECT id, name FROM users".toList⟩
      [⟨"USERS".toList, "SELECT 1".toList⟩] rfl (by decide) (by decide)⟩

/-- C10: for every request, every configuration and every database the
`/health` handler returns normally with status 200 and the body
`ok200 - Healthy!`, and nothing was done to the database. -/
theorem healthHandler_is_constant (db : Database) (config : Config) (r : Request) :
    healthHandler db config ResponseWriter.fresh r
      = ⟨⟨some 200, "ok200 - Healthy!".toList⟩, [], .returned⟩ := by
  rfl

end Exporter
